import Mathlib

/-!
Verification of the ChatGLM attention core
(`python/llm/src/bigdl/llm/transformers/models/chatglm.py`).

The tensors of the source are embedded as total functions from natural-number
indices to exact rationals; every tensor op of the pipeline (views, permutes,
batched matmuls, masked fill, softmax) is translated to explicit index
arithmetic over these functions.  Floating-point evaluation is replaced by
exact rational arithmetic, and the exponential inside softmax is an explicit
parameter `e : ℚ → ℚ` (none of the statements below need any property of the
exponential beyond the two compared computations using the same one, except
where a positivity hypothesis is stated).  A score of `-inf` produced by
`masked_fill` is represented by `none : Option ℚ`, whose "exponential" is `0`.
-/

namespace ChatGLM

/-- A rank-4 tensor: indices are (dim0, dim1, dim2, dim3) ↦ entry. -/
abbrev T4 : Type := Nat → Nat → Nat → Nat → ℚ

/-- A rank-3 tensor. -/
abbrev T3 : Type := Nat → Nat → Nat → ℚ

/-- A boolean attention mask, indexed (batch, query position, key position);
`true` marks a blocked position.  The head dimension of the source mask has
size 1 and broadcasts, so it is omitted. -/
abbrev MaskT : Type := Nat → Nat → Nat → Bool

/-- Error outcomes of a forward call, following the spec taxonomy.
`missingAttribute` models reading `self.kv_cache` before it was ever set. -/
inductive Err where
  | shapeMismatch
  | configError
  | missingAttribute
deriving DecidableEq

def KV_CACHE_ALLOC_BLOCK_LENGTH : Nat := 256

def KV_CACHE_ALLOC_MIN_LENGTH : Nat := 512

/-- The configuration fields of the enclosing module that the forward call
reads (`self.…`).  `multi_query_attention` is specialized to `True`
(the ChatGLM-2 setting; the uniform branch is dead for this model family),
and `attention_softmax_in_fp32` has no observable effect in exact rational
arithmetic, so neither appears as data. -/
structure Config where
  num_attention_heads_per_partition : Nat
  num_multi_query_groups_per_partition : Nat
  hidden_size_per_attention_head : Nat
  norm_factor : ℚ
  coeff : Option ℚ

/-- `self.hidden_size_per_partition` (the merged heads-times-head-dim size). -/
def Config.hidden_size_per_partition (c : Config) : Nat :=
  c.num_attention_heads_per_partition * c.hidden_size_per_attention_head

/-- An external `nn.Linear` collaborator (`self.query_key_value`, `self.dense`). -/
structure Projection where
  weight : Nat → Nat → ℚ
  bias : Nat → ℚ

/-- Applying a linear module to the last dimension: it reads exactly its
`in_features` first coordinates. -/
def linearApply (p : Projection) (in_features : Nat) (x : Nat → ℚ) (o : Nat) : ℚ :=
  p.bias o + ∑ t in Finset.range in_features, p.weight o t * x t

/-- Exponential of a possibly minus-infinite score: `exp(-inf) = 0`. -/
def expScore (e : ℚ → ℚ) : Option ℚ → ℚ
  | none => 0
  | some x => e x

/-- One row of `F.softmax(·, dim=-1)` over the key axis of length `n`,
with `-inf` entries contributing weight `0`. -/
def softmaxRow (e : ℚ → ℚ) (n : Nat) (s : Nat → Option ℚ) (j : Nat) : ℚ :=
  expScore e (s j) / ∑ k in Finset.range n, expScore e (s k)

/-! ### Rotary position embedding (`apply_rotary_pos_emb`, source lines 55-73) -/

/-- `apply_rotary_pos_emb(x, rope_cache)`.
`x` is `[sq, b, np, hn]`; `rope_cache` is `[cache_len, rot_pairs, 2]` and is
first truncated to its first `sq` rows (`rope_cache = rope_cache[:sq]`; the
truncated view is modelled as zero outside its rows, which are never read for
in-range row indices).  The prefix of length `2 * rot_pairs` of the last
dimension is reshaped into pairs (entry `d` is component `d % 2` of pair
`d / 2`), each pair `(a, b)` is rotated by the cached coefficients `(c, s)` to
`(a*c - b*s, b*c + a*s)` (the `torch.stack` of the two product combinations,
then `flatten(3)`), and the suffix `x_pass` is concatenated back unchanged. -/
def apply_rotary_pos_emb (sq rot_pairs : Nat) (x : T4) (rope_cache : T3) : T4 :=
  let rc : T3 := fun s p c => if s < sq then rope_cache s p c else 0
  fun s bi h d =>
    if d < 2 * rot_pairs then
      if d % 2 = 0 then
        x s bi h (2 * (d / 2)) * rc s (d / 2) 0 - x s bi h (2 * (d / 2) + 1) * rc s (d / 2) 1
      else
        x s bi h (2 * (d / 2) + 1) * rc s (d / 2) 0 + x s bi h (2 * (d / 2)) * rc s (d / 2) 1
    else x s bi h d

/-! ### Attention core (`cross_attn_forward_8eb45c`, source lines 193-282)

The manual path (taken when `query_len == 1` or no fused primitive exists)
is translated stage by stage, keeping the flattening views of the source:
`query_layer.view(sq, b*np, hn)`, `key_layer.view(b*np, sk, hn)` and the later
`view(*output_size)` calls collapse the (batch, head) pair into one index
`i = bi * np + h`, which the model performs with explicit `/ np` and `% np`
index arithmetic.  `query` is laid out `[sq, b, np, hn]`, while `key` and
`value` arrive in `[b, np, sk, hn]` layout (the layout the cache / multi-query
expansion produces and the only one the view arithmetic of the source is
consistent with). -/

/-- `torch.baddbmm(buffer, qᵀ, kᵀ, beta=0.0, alpha=1/self.norm_factor)`
viewed as a flat-batched score tensor `[b*np, sq, sk]`; with `beta = 0` the
preallocated buffer does not contribute. -/
def rawScoresFlat (cfg : Config) (query key : T4) : T3 :=
  let np := cfg.num_attention_heads_per_partition
  let hn := cfg.hidden_size_per_attention_head
  fun i s j =>
    (1 / cfg.norm_factor) *
      ∑ d in Finset.range hn, query s (i / np) (i % np) d * key (i / np) (i % np) j d

/-- `matmul_result.view(b, np, sq, sk)`, the `attention_scores` tensor;
the `float()` upcast of `attention_softmax_in_fp32` is the identity in exact
arithmetic, and `self.coeff` multiplies the scores when configured. -/
def attnScores (cfg : Config) (query key : T4) : T4 :=
  let np := cfg.num_attention_heads_per_partition
  let base : T4 := fun bi h s j => rawScoresFlat cfg query key (bi * np + h) s j
  match cfg.coeff with
  | some c => fun bi h s j => base bi h s j * c
  | none => base

/-- The mask actually applied: when none is supplied and the score tensor is
square, `torch.ones(b, 1, sq, sk).tril_()` is built and inverted, i.e. the
block mask `s < j`. -/
def effectiveMask (sq sk : Nat) (mask : Option MaskT) : Option MaskT :=
  match mask with
  | some m => some m
  | none => if sq = sk then some (fun _ s j => decide (s < j)) else none

/-- `masked_fill(mask, -inf)` on one score: a blocked position becomes `none`
(minus infinity). -/
def maskFill (m? : Option MaskT) (score : ℚ) (bi s j : Nat) : Option ℚ :=
  match m? with
  | some m => if m bi s j then none else some score
  | none => some score

/-- `attention_scores.masked_fill(mask, -inf)` under the effective mask. -/
def maskedScores (cfg : Config) (sq sk : Nat) (query key : T4) (mask : Option MaskT)
    (bi h s j : Nat) : Option ℚ :=
  maskFill (effectiveMask sq sk mask) (attnScores cfg query key bi h s j) bi s j

/-- `attention_probs = F.softmax(attention_scores, dim=-1)`; the cast back via
`type_as` and the inference-time dropout (`p = 0`) are identities. -/
def attnProbs (cfg : Config) (e : ℚ → ℚ) (sq sk : Nat) (query key : T4)
    (mask : Option MaskT) : T4 :=
  fun bi h s j => softmaxRow e sk (maskedScores cfg sq sk query key mask bi h s) j

/-- The manual score/softmax/weighted-sum path (the `else` branch of
`cross_attn_forward_8eb45c`): probabilities and values are re-viewed as
`[b*np, sq, sk]` / `[b*np, sk, hn]`, multiplied with `torch.bmm`, viewed back
to `[b, np, sq, hn]`, permuted to `[sq, b, np, hn]` and merged to
`[sq, b, hidden_size_per_partition]`. -/
def pathB (cfg : Config) (e : ℚ → ℚ) (sq b sk : Nat) (query key value : T4)
    (mask : Option MaskT) : T3 :=
  let np := cfg.num_attention_heads_per_partition
  let hn := cfg.hidden_size_per_attention_head
  let context : T3 := fun i s d =>
    ∑ j in Finset.range sk,
      attnProbs cfg e sq sk query key mask (i / np) (i % np) s j * value (i / np) (i % np) j d
  fun s bi p => context (bi * np + p / hn) s (p % hn)

/-- Masking modes of the fused primitive. -/
inductive SdpaMask where
  | noMask
  | causal
  | keep (m : MaskT)

/-- Modelled from the spec: `torch.nn.functional.scaled_dot_product_attention`
is not part of this repository; per spec §4.5 / glossary it is "a single
numeric-backend operation computing the full attention (score, mask, softmax,
weighted sum)", its boolean mask marks positions to keep, `is_causal` keeps
key positions `j ≤ s`, and both paths scale scores by the same
`1/sqrt(head_dim)` norm factor (passed here as `scale`).  Inputs are in
`[b, np, seq, hn]` layout. -/
def scaled_dot_product_attention (e : ℚ → ℚ) (scale : ℚ) (hn sk : Nat)
    (q k v : T4) (mode : SdpaMask) : T4 :=
  fun bi h s d =>
    let raw : Nat → ℚ := fun j => scale * ∑ t in Finset.range hn, q bi h s t * k bi h j t
    let ms : Nat → Option ℚ := fun j =>
      match mode with
      | .noMask => some (raw j)
      | .causal => if j ≤ s then some (raw j) else none
      | .keep m => if m bi s j then some (raw j) else none
    ∑ j in Finset.range sk, softmaxRow e sk ms j * v bi h j d

/-- The fused path (the `query_layer.size(0) > 1 and pytorch_major_version >= 2`
branch): the query is permuted to `[b, np, sq, hn]`; with no mask and a square
score shape causal masking is requested from the primitive, otherwise a given
block mask is inverted into the primitive's keep convention; the result is
permuted back and the trailing head dimensions merged. -/
def pathA (cfg : Config) (e : ℚ → ℚ) (sq b sk : Nat) (query key value : T4)
    (mask : Option MaskT) : T3 :=
  let hn := cfg.hidden_size_per_attention_head
  let qp : T4 := fun bi h s d => query s bi h d
  let ctx : T4 :=
    match mask with
    | none =>
      if sq = sk then
        scaled_dot_product_attention e (1 / cfg.norm_factor) hn sk qp key value .causal
      else
        scaled_dot_product_attention e (1 / cfg.norm_factor) hn sk qp key value .noMask
    | some m =>
      scaled_dot_product_attention e (1 / cfg.norm_factor) hn sk qp key value
        (.keep (fun bi s j => ! m bi s j))
  fun s bi p => ctx bi (p / hn) s (p % hn)

/-- `cross_attn_forward_8eb45c(self, query, key, value, mask)`: strategy
selection between the fused and the manual path.  `torch_major` is the host
`int(torch.__version__.split('.')[0])`. -/
def cross_attn_forward_8eb45c (cfg : Config) (torch_major : Nat) (e : ℚ → ℚ)
    (sq b sk : Nat) (query key value : T4) (mask : Option MaskT) : T3 :=
  if 1 < sq ∧ 2 ≤ torch_major then pathA cfg e sq b sk query key value mask
  else pathB cfg e sq b sk query key value mask

/-! ### The attention forward call
(`chatglm_attention_forward_8eb45c`, source lines 76-190) -/

/-- A `(key, value)` tensor pair together with its time length (`size(2)`);
both the caller-visible `kv_cache` handles and the tensors fed into the core
attention have this form, in `[b, np, len, hn]` layout. -/
structure KVPair where
  k : T4
  v : T4
  len : Nat

/-- The mutable per-layer attributes `self.kv_cache` (a pair of buffers of
time size `self.max_cache_length`) and `self.max_cache_length`. -/
structure KVCacheSt where
  k : T4
  v : T4
  max_cache_length : Nat

/-- The slice assignment `dst[:, :, start:start+n, :] = src`. -/
def writeSlice (dst : T4) (start n : Nat) (src : T4) : T4 :=
  fun bi h t d => if start ≤ t ∧ t < start + n then src bi h (t - start) d else dst bi h t d

/-- The multi-query head broadcaster (source lines 128-141, applied to key and
value): `permute(1, 2, 0, 3)` from `[sq, b, g, hn]` to `[b, g, sq, hn]`,
`unsqueeze(-3)` and `expand` to `np / g` replicas, then `contiguous().view(b,
np, sq, hn)`.  The `view` succeeds exactly when the element counts of source
(`b * g * (np / g) * sq * hn`) and target agree, and fails with a shape error
otherwise — the source contains no divisibility precheck. -/
def broadcast_kv_heads (np g b sq hn : Nat) (x : T4) : Except Err T4 :=
  if b * (g * ((np / g) * (sq * hn))) = b * (np * (sq * hn)) then
    .ok (fun bi h t d => x t bi (h / (np / g)) d)
  else .error .shapeMismatch

/-- The successful result of `broadcast_kv_heads` as a pure function:
replica group `h / (np / g)` of query head `h` selects the kv group. -/
def expandHeads (np g : Nat) (x : T4) : T4 :=
  fun bi h t d => x t bi (h / (np / g)) d

/-- The cache adjustment of the forward call (source lines 144-176): growable
buffer update plus the choice of the tensors used for attention and of the
returned handle.  `garbage_k`/`garbage_v` stand for the unspecified contents
of freshly `torch.empty`-allocated buffers.  Returns (tensors used for this
step's attention, returned `kv_cache` handle, new private state). -/
def cacheUpdate (garbage_k garbage_v : T4) (cur : Nat) (key_layer value_layer : T4)
    (kv_cache : Option KVPair) (use_cache : Bool) (st : Option KVCacheSt) :
    Except Err (KVPair × Option KVPair × Option KVCacheSt) :=
  match kv_cache with
  | some c =>
    match st with
    | none => .error .missingAttribute
    | some s0 =>
      let past := c.len
      let s1 : KVCacheSt :=
        if s0.max_cache_length < past + cur then
          { k := writeSlice garbage_k 0 past c.k,
            v := writeSlice garbage_v 0 past c.v,
            max_cache_length := past + cur + KV_CACHE_ALLOC_BLOCK_LENGTH }
        else s0
      let s2 : KVCacheSt :=
        { s1 with
          k := writeSlice s1.k past cur key_layer,
          v := writeSlice s1.v past cur value_layer }
      let sliced : KVPair := { k := s2.k, v := s2.v, len := past + cur }
      .ok (sliced, if use_cache then some sliced else none, some s2)
  | none =>
    if use_cache then
      let cap := max KV_CACHE_ALLOC_MIN_LENGTH cur + KV_CACHE_ALLOC_BLOCK_LENGTH
      let s2 : KVCacheSt :=
        { k := writeSlice garbage_k 0 cur key_layer,
          v := writeSlice garbage_v 0 cur value_layer,
          max_cache_length := cap }
      let out : KVPair := { k := key_layer, v := value_layer, len := cur }
      .ok (out, some out, some s2)
    else
      .ok ({ k := key_layer, v := value_layer, len := cur }, none, st)

/-- `mixed_x_layer = self.query_key_value(hidden_states)`. -/
def mixedLayer (query_key_value : Projection) (hidden_size : Nat) (hidden_states : T3) : T3 :=
  fun s bi o => linearApply query_key_value hidden_size (hidden_states s bi) o

/-- The query part of the multi-query split followed by `view`:
`[sq, b, np * hn] → [sq, b, np, hn]`. -/
def splitQuery (cfg : Config) (mixed : T3) : T4 :=
  let hn := cfg.hidden_size_per_attention_head
  fun s bi h d => mixed s bi (h * hn + d)

/-- The key part of the multi-query split (offset `np * hn`). -/
def splitKey (cfg : Config) (mixed : T3) : T4 :=
  let np := cfg.num_attention_heads_per_partition
  let hn := cfg.hidden_size_per_attention_head
  fun s bi h d => mixed s bi (np * hn + (h * hn + d))

/-- The value part of the multi-query split (offset `np * hn + g * hn`). -/
def splitValue (cfg : Config) (mixed : T3) : T4 :=
  let np := cfg.num_attention_heads_per_partition
  let g := cfg.num_multi_query_groups_per_partition
  let hn := cfg.hidden_size_per_attention_head
  fun s bi h d => mixed s bi (np * hn + g * hn + (h * hn + d))

/-- The query layer entering the attention core: split, then rotary-embedded
when `rotary_pos_emb` is given. -/
def queryLayerOf (cfg : Config) (query_key_value : Projection) (hidden_size sq rot_pairs : Nat)
    (hidden_states : T3) (rotary_pos_emb : Option T3) : T4 :=
  let q := splitQuery cfg (mixedLayer query_key_value hidden_size hidden_states)
  match rotary_pos_emb with
  | some rc => apply_rotary_pos_emb sq rot_pairs q rc
  | none => q

/-- The key layer before head expansion: split, then rotary-embedded when
`rotary_pos_emb` is given. -/
def keyLayerOf (cfg : Config) (query_key_value : Projection) (hidden_size sq rot_pairs : Nat)
    (hidden_states : T3) (rotary_pos_emb : Option T3) : T4 :=
  let k := splitKey cfg (mixedLayer query_key_value hidden_size hidden_states)
  match rotary_pos_emb with
  | some rc => apply_rotary_pos_emb sq rot_pairs k rc
  | none => k

/-- The value layer before head expansion (no rotary embedding). -/
def valueLayerOf (cfg : Config) (query_key_value : Projection) (hidden_size : Nat)
    (hidden_states : T3) : T4 :=
  splitValue cfg (mixedLayer query_key_value hidden_size hidden_states)

/-- `chatglm_attention_forward_8eb45c(self, hidden_states, attention_mask,
rotary_pos_emb, kv_cache, use_cache)` specialized to
`multi_query_attention = True`: project, split, rotate, expand kv heads,
update the cache, run the attention core, output-project.  Returns
`(output, kv_cache, new private cache state)`, the last component standing
for the mutation of `self.kv_cache` / `self.max_cache_length`. -/
def chatglm_attention_forward_8eb45c (cfg : Config) (query_key_value dense : Projection)
    (hidden_size : Nat) (garbage_k garbage_v : T4) (e : ℚ → ℚ) (torch_major : Nat)
    (sq b rot_pairs : Nat) (hidden_states : T3) (attention_mask : Option MaskT)
    (rotary_pos_emb : Option T3) (kv_cache : Option KVPair) (use_cache : Bool)
    (st : Option KVCacheSt) : Except Err (T3 × Option KVPair × Option KVCacheSt) :=
  let np := cfg.num_attention_heads_per_partition
  let g := cfg.num_multi_query_groups_per_partition
  let hn := cfg.hidden_size_per_attention_head
  let query_layer := queryLayerOf cfg query_key_value hidden_size sq rot_pairs
      hidden_states rotary_pos_emb
  let key_layer := keyLayerOf cfg query_key_value hidden_size sq rot_pairs
      hidden_states rotary_pos_emb
  let value_layer := valueLayerOf cfg query_key_value hidden_size hidden_states
  match broadcast_kv_heads np g b sq hn key_layer,
      broadcast_kv_heads np g b sq hn value_layer with
  | .ok key_b, .ok value_b =>
    match cacheUpdate garbage_k garbage_v sq key_b value_b kv_cache use_cache st with
    | .ok (kvUsed, newHandle, st') =>
      let context := cross_attn_forward_8eb45c cfg torch_major e sq b kvUsed.len
          query_layer kvUsed.k kvUsed.v attention_mask
      let output : T3 := fun s bi o =>
        linearApply dense (np * hn) (context s bi) o
      .ok (output, newHandle, st')
    | .error err => .error err
  | .error err, _ => .error err
  | _, .error err => .error err

/-! ### Streaming drivers -/

/-- Dropping the first `i` rows of a rank-3 tensor (row `s` of the shifted
tensor is row `s + i` of the original); used to present the single token at
position `i` (and the rotary rows from position `i` on) to an incremental
call. -/
def shiftRows (i : Nat) (x : T3) : T3 :=
  fun s a c => x (s + i) a c

/-- Token-by-token decoding: step `i` feeds only row `i` of `hidden_states`
(with the matching rotary slice) through a single-token forward call, carrying
the cache handle and the private layer state returned by the previous call.
No explicit attention mask is passed and `use_cache` is on. -/
def incrementalRun (cfg : Config) (query_key_value dense : Projection) (hidden_size : Nat)
    (garbage_k garbage_v : T4) (e : ℚ → ℚ) (torch_major : Nat) (b rot_pairs : Nat)
    (hidden_states : T3) (rotary_pos_emb : Option T3) :
    Nat → Except Err (T3 × Option KVPair × Option KVCacheSt)
  | 0 =>
    chatglm_attention_forward_8eb45c cfg query_key_value dense hidden_size garbage_k garbage_v
      e torch_major 1 b rot_pairs (shiftRows 0 hidden_states) none
      (Option.map (shiftRows 0) rotary_pos_emb) none true none
  | i + 1 =>
    match incrementalRun cfg query_key_value dense hidden_size garbage_k garbage_v
        e torch_major b rot_pairs hidden_states rotary_pos_emb i with
    | .ok (_, h, s) =>
      chatglm_attention_forward_8eb45c cfg query_key_value dense hidden_size garbage_k garbage_v
        e torch_major 1 b rot_pairs (shiftRows (i + 1) hidden_states) none
        (Option.map (shiftRows (i + 1)) rotary_pos_emb) h true s
    | .error err => .error err

/-- A sequence of cache appends with caching requested: each step passes
`cur` new key/value rows (in `[b, np, cur, hn]` layout) together with the
handle and private state produced by the previous step. -/
def appendMany (garbage_k garbage_v : T4) (start : Option KVPair × Option KVCacheSt) :
    List (Nat × T4 × T4) → Except Err (Option KVPair × Option KVCacheSt)
  | [] => .ok start
  | (cur, kb, vb) :: rest =>
    match cacheUpdate garbage_k garbage_v cur kb vb start.1 true start.2 with
    | .ok (_, h, s) => appendMany garbage_k garbage_v (h, s) rest
    | .error err => .error err

/-- The total number of token positions appended by a list of steps. -/
def totalTokens (l : List (Nat × T4 × T4)) : Nat :=
  (l.map (fun step => step.1)).sum

/-! ### Index bookkeeping lemmas -/

theorem flat_mod {np : Nat} (bi h : Nat) (hh : h < np) : (bi * np + h) % np = h := by
  rw [Nat.add_comm, Nat.add_mul_mod_self_right, Nat.mod_eq_of_lt hh]

theorem flat_div {np : Nat} (bi h : Nat) (hnp : 0 < np) (hh : h < np) :
    (bi * np + h) / np = bi := by
  rw [Nat.add_comm, Nat.add_mul_div_right _ _ hnp, Nat.div_eq_of_lt hh, Nat.zero_add]

/-- When the group count divides the head count, the element-count check of
the expansion `view` passes and the broadcaster returns the replicated
tensor. -/
theorem broadcast_kv_heads_ok {np g : Nat} (b sq hn : Nat) (x : T4) (hdvd : g ∣ np) :
    broadcast_kv_heads np g b sq hn x = .ok (expandHeads np g x) := by
  have h3 : g * (np / g) = np := Nat.mul_div_cancel' hdvd
  rw [broadcast_kv_heads, if_pos (by rw [← mul_assoc g, h3])]
  rfl

/-- A sum of exponentiated scores that are `-inf` from position `m` on
collapses to the prefix sum. -/
theorem sum_expScore_vanish (e : ℚ → ℚ) (f : Nat → Option ℚ) (m n : Nat) (hmn : m ≤ n)
    (hvan : ∀ j, m ≤ j → j < n → f j = none) :
    ∑ k in Finset.range n, expScore e (f k) = ∑ k in Finset.range m, expScore e (f k) := by
  refine (Finset.sum_subset (Finset.range_subset.mpr hmn) ?_).symm
  intro j hjn hjm
  rw [Finset.mem_range] at hjn
  rw [Finset.mem_range, Nat.not_lt] at hjm
  rw [hvan j hjm hjn]
  rfl

/-! ### Claim C7: rotary embedding -/

/-- C7: `apply_rotary_pos_emb` on an input `[sq, b, np, hn]` uses only the
first `sq` rows of the rotary cache, maps each pair `(a, b)` among the first
`2 * rot_pairs` entries of the last dimension with coefficients `(c, s)` to
`(a*c - b*s, b*c + a*s)`, and leaves the suffix of the last dimension
unchanged. -/
theorem C7_rotary_embedding (sq rot_pairs : Nat) (x : T4) :
    (∀ rope rope2 : T3, (∀ s p c, s < sq → rope s p c = rope2 s p c) →
      ∀ s bi h d, s < sq →
        apply_rotary_pos_emb sq rot_pairs x rope s bi h d
          = apply_rotary_pos_emb sq rot_pairs x rope2 s bi h d) ∧
    (∀ (rope : T3) (s bi h p : Nat), p < rot_pairs → s < sq →
      apply_rotary_pos_emb sq rot_pairs x rope s bi h (2 * p)
          = x s bi h (2 * p) * rope s p 0 - x s bi h (2 * p + 1) * rope s p 1
        ∧ apply_rotary_pos_emb sq rot_pairs x rope s bi h (2 * p + 1)
          = x s bi h (2 * p + 1) * rope s p 0 + x s bi h (2 * p) * rope s p 1) ∧
    (∀ (rope : T3) (s bi h d : Nat), 2 * rot_pairs ≤ d →
      apply_rotary_pos_emb sq rot_pairs x rope s bi h d = x s bi h d) := by
  refine ⟨?_, ?_, ?_⟩
  · intro rope rope2 hag s bi h d hs
    simp only [apply_rotary_pos_emb, if_pos hs]
    by_cases hd : d < 2 * rot_pairs
    · rw [if_pos hd, if_pos hd, hag s (d / 2) 0 hs, hag s (d / 2) 1 hs]
    · rw [if_neg hd, if_neg hd]
  · intro rope s bi h p hp hs
    have hlt : 2 * p < 2 * rot_pairs := by omega
    have hlt1 : 2 * p + 1 < 2 * rot_pairs := by omega
    have hm0 : 2 * p % 2 = 0 := by omega
    have hm1 : (2 * p + 1) % 2 = 1 := by omega
    have hd0 : 2 * p / 2 = p := by omega
    have hd1 : (2 * p + 1) / 2 = p := by omega
    constructor
    · simp only [apply_rotary_pos_emb, if_pos hlt, if_pos hs, hm0, hd0]
      simp
    · simp only [apply_rotary_pos_emb, if_pos hlt1, if_pos hs, hm1, hd1]
      norm_num
  · intro rope s bi h d hd
    simp only [apply_rotary_pos_emb, if_neg (Nat.not_lt.mpr hd)]

/-! ### Claim C6: causal masking in the manual path -/

/-- C6: in the manual path with no supplied mask and a square score shape
(`query_len = key_len = n`), the synthesized inverted lower-triangular mask
drives the attention probability at `[i, j]` to exactly `0` whenever `j > i`:
the blocked score is `-inf` and contributes zero weight to the softmax. -/
theorem C6_causal_masking_zero (cfg : Config) (e : ℚ → ℚ) (n : Nat) (query key : T4)
    (bi h i j : Nat) (hij : i < j) :
    attnProbs cfg e n n query key none bi h i j = 0 := by
  have hm : effectiveMask n n (none : Option MaskT) = some (fun _ s j => decide (s < j)) := by
    simp [effectiveMask]
  simp only [attnProbs, maskedScores, softmaxRow, hm, maskFill]
  rw [if_pos (by simpa using hij)]
  show (0 : ℚ) / _ = 0
  exact zero_div _

/-! ### Claim C8: multi-query head broadcaster -/

/-- C8 counterexample: with 8 query heads and 3 kv groups (not divisible) the
broadcaster fails with the view's `ShapeMismatch`, not with `ConfigError` as
the claim states — the source has no divisibility precheck. -/
theorem C8_counterexample :
    broadcast_kv_heads 8 3 1 1 1 (fun _ _ _ _ => 0) = .error .shapeMismatch ∧
    broadcast_kv_heads 8 3 1 1 1 (fun _ _ _ _ => 0) ≠ .error .configError := by
  constructor
  · rfl
  · intro hc
    have h1 : broadcast_kv_heads 8 3 1 1 1 (fun _ _ _ _ => 0) = .error .shapeMismatch := rfl
    rw [h1] at hc
    exact absurd (Except.error.inj hc) (by decide)

/-- C8 (amended): the broadcaster fails — with the `view`'s shape-mismatch
error, not `ConfigError` — whenever `num_query_heads` is not evenly divisible
by `num_kv_groups` (and the remaining dimensions are nonzero); when it
divides, the expansion succeeds and each replica group of
`np / g` consecutive query heads receives identical key/value rows. -/
theorem C8_head_broadcast (np g b sq hn : Nat) (x : T4) :
    (0 < b → 0 < sq → 0 < hn → ¬ g ∣ np →
      broadcast_kv_heads np g b sq hn x = .error .shapeMismatch) ∧
    (g ∣ np →
      broadcast_kv_heads np g b sq hn x = .ok (expandHeads np g x) ∧
      ∀ bi h1 h2 t d, h1 / (np / g) = h2 / (np / g) →
        expandHeads np g x bi h1 t d = expandHeads np g x bi h2 t d) := by
  constructor
  · intro hb hsq hhn hndvd
    rw [broadcast_kv_heads, if_neg]
    intro hcond
    have h1 : g * ((np / g) * (sq * hn)) = np * (sq * hn) :=
      Nat.eq_of_mul_eq_mul_left hb hcond
    have h2 : g * (np / g) * (sq * hn) = np * (sq * hn) := by
      rw [mul_assoc]; exact h1
    have h3 : g * (np / g) = np :=
      Nat.eq_of_mul_eq_mul_right (Nat.mul_pos hsq hhn) h2
    exact hndvd ⟨np / g, h3.symm⟩
  · intro hdvd
    refine ⟨broadcast_kv_heads_ok b sq hn x hdvd, ?_⟩
    intro bi h1 h2 t d hgroup
    simp only [expandHeads, hgroup]

/-! ### Claim C5: cache allocation sizing -/

/-- C5: with no prior cache and caching requested, the allocated capacity is
`max(MIN_LENGTH, cur) + ALLOC_BLOCK` and the new keys/values land in the first
`cur` slots; with a prior cache of `past` rows whose arrival overflows the
current capacity, the new capacity is `past + cur + ALLOC_BLOCK`, the prior
valid region is copied into `[0, past)` and the new rows land in
`[past, past + cur)`. -/
theorem C5_allocation_sizing (garbage_k garbage_v : T4) (cur : Nat) (kb vb : T4) :
    (∃ out h s2, cacheUpdate garbage_k garbage_v cur kb vb none true none
        = .ok (out, h, some s2) ∧
      s2.max_cache_length = max KV_CACHE_ALLOC_MIN_LENGTH cur + KV_CACHE_ALLOC_BLOCK_LENGTH ∧
      ∀ bi hh t d, t < cur →
        s2.k bi hh t d = kb bi hh t d ∧ s2.v bi hh t d = vb bi hh t d) ∧
    (∀ (c : KVPair) (s0 : KVCacheSt), s0.max_cache_length < c.len + cur →
      ∃ out h s2, cacheUpdate garbage_k garbage_v cur kb vb (some c) true (some s0)
          = .ok (out, h, some s2) ∧
        s2.max_cache_length = c.len + cur + KV_CACHE_ALLOC_BLOCK_LENGTH ∧
        (∀ bi hh t d, t < c.len →
          s2.k bi hh t d = c.k bi hh t d ∧ s2.v bi hh t d = c.v bi hh t d) ∧
        (∀ bi hh t d, c.len ≤ t → t < c.len + cur →
          s2.k bi hh t d = kb bi hh (t - c.len) d ∧
            s2.v bi hh t d = vb bi hh (t - c.len) d)) := by
  constructor
  · refine ⟨_, _, _, rfl, rfl, ?_⟩
    intro bi hh t d ht
    simp [writeSlice, ht]
  · intro c s0 hover
    simp only [cacheUpdate, if_pos hover]
    refine ⟨_, _, _, rfl, rfl, ?_, ?_⟩
    · intro bi hh t d ht
      have hnot : ¬ (c.len ≤ t ∧ t < c.len + cur) := by omega
      simp [writeSlice, hnot, ht]
    · intro bi hh t d ht1 ht2
      have hin : c.len ≤ t ∧ t < c.len + cur := ⟨ht1, ht2⟩
      simp [writeSlice, hin]

/-! ### Claim C9: frame property of an in-capacity append -/

/-- C9: when a prior cache handle of `past` rows is passed and
`past + cur ≤ max_cache_length`, the call writes only the slots
`[past, past + cur)` of the private buffers: the capacity and all other slots
(both the prior region `[0, past)` and the tail `[past + cur, ∞)`) are
unchanged. -/
theorem C9_frame_no_realloc (garbage_k garbage_v : T4) (cur : Nat) (kb vb : T4)
    (c : KVPair) (s0 : KVCacheSt) (use_cache : Bool)
    (hfit : c.len + cur ≤ s0.max_cache_length) :
    ∃ out h s2, cacheUpdate garbage_k garbage_v cur kb vb (some c) use_cache (some s0)
        = .ok (out, h, some s2) ∧
      s2.max_cache_length = s0.max_cache_length ∧
      (∀ bi hh t d, t < c.len ∨ c.len + cur ≤ t →
        s2.k bi hh t d = s0.k bi hh t d ∧ s2.v bi hh t d = s0.v bi hh t d) ∧
      (∀ bi hh t d, c.len ≤ t → t < c.len + cur →
        s2.k bi hh t d = kb bi hh (t - c.len) d ∧
          s2.v bi hh t d = vb bi hh (t - c.len) d) := by
  have hno : ¬ s0.max_cache_length < c.len + cur := Nat.not_lt.mpr hfit
  simp only [cacheUpdate, if_neg hno]
  refine ⟨_, _, _, rfl, rfl, ?_, ?_⟩
  · intro bi hh t d ht
    have hnot : ¬ (c.len ≤ t ∧ t < c.len + cur) := by omega
    simp [writeSlice, hnot]
  · intro bi hh t d ht1 ht2
    have hin : c.len ≤ t ∧ t < c.len + cur := ⟨ht1, ht2⟩
    simp [writeSlice, hin]

/-! ### Claim C2: the externally returned cache handle -/

/-- C2 counterexample: appending one token to an existing one-token cache
(capacity 769, no overflow) returns a handle of time length `2` — the full
valid region `[0, past + cur)` — whereas the claim's "most recent window
produced in this call" would have length `cur = 1`.  Source lines 159-160
reassign `key_layer`/`value_layer` to the full valid slice before line 174
packs them into the returned handle. -/
theorem C2_counterexample :
    Except.map (fun r => Option.map KVPair.len r.2.1)
      (chatglm_attention_forward_8eb45c ⟨1, 1, 1, 1, none⟩ ⟨fun _ _ => 1, fun _ => 0⟩
        ⟨fun _ _ => 1, fun _ => 0⟩ 1 (fun _ _ _ _ => 0) (fun _ _ _ _ => 0) (fun _ => 1) 2
        1 1 0 (fun _ _ _ => 1) none none
        (some ⟨fun _ _ _ _ => 5, fun _ _ _ _ => 5, 1⟩) true
        (some ⟨fun _ _ _ _ => 5, fun _ _ _ _ => 5, 769⟩))
      = .ok (some 2) ∧ (2 : Nat) ≠ 1 :=
  ⟨rfl, by decide⟩

/-- C2 (amended): for every append into an existing cache with caching on,
the returned handle is the full valid region `[0, past + cur)` of the private
buffers — its length is `past + cur`, its tensors are the private buffer
tensors themselves, and its tail window `[past, past + cur)` holds the keys
and values produced in this call; only the buffers behind that handle are
additionally retained privately (with their allocated capacity) by the layer
instance. -/
theorem C2_returned_handle (cfg : Config) (query_key_value dense : Projection)
    (hidden_size : Nat) (garbage_k garbage_v : T4) (e : ℚ → ℚ)
    (torch_major sq b rot_pairs : Nat) (hidden_states : T3)
    (attention_mask : Option MaskT) (rotary_pos_emb : Option T3)
    (c : KVPair) (s0 : KVCacheSt)
    (hdvd : cfg.num_multi_query_groups_per_partition ∣
      cfg.num_attention_heads_per_partition) :
    ∃ out h1 s1,
      chatglm_attention_forward_8eb45c cfg query_key_value dense hidden_size
          garbage_k garbage_v e torch_major sq b rot_pairs hidden_states attention_mask
          rotary_pos_emb (some c) true (some s0) = .ok (out, some h1, some s1) ∧
      h1.len = c.len + sq ∧ h1.k = s1.k ∧ h1.v = s1.v ∧
      (∀ bi hh t d, c.len ≤ t → t < c.len + sq →
        h1.k bi hh t d
            = expandHeads cfg.num_attention_heads_per_partition
                cfg.num_multi_query_groups_per_partition
                (keyLayerOf cfg query_key_value hidden_size sq rot_pairs hidden_states
                  rotary_pos_emb) bi hh (t - c.len) d ∧
          h1.v bi hh t d
            = expandHeads cfg.num_attention_heads_per_partition
                cfg.num_multi_query_groups_per_partition
                (valueLayerOf cfg query_key_value hidden_size hidden_states)
                bi hh (t - c.len) d) := by
  unfold chatglm_attention_forward_8eb45c
  dsimp only
  rw [broadcast_kv_heads_ok _ _ _ _ hdvd, broadcast_kv_heads_ok _ _ _ _ hdvd]
  by_cases hov : s0.max_cache_length < c.len + sq
  · simp only [cacheUpdate, if_pos hov]
    refine ⟨_, _, _, rfl, rfl, rfl, rfl, ?_⟩
    intro bi hh t d ht1 ht2
    have hin : c.len ≤ t ∧ t < c.len + sq := ⟨ht1, ht2⟩
    simp [writeSlice, hin]
  · simp only [cacheUpdate, if_neg hov]
    refine ⟨_, _, _, rfl, rfl, rfl, rfl, ?_⟩
    intro bi hh t d ht1 ht2
    have hin : c.len ≤ t ∧ t < c.len + sq := ⟨ht1, ht2⟩
    simp [writeSlice, hin]

/-! ### Claim C10: forward call with caching off and no prior cache -/

/-- C10: with `use_cache = False` and no prior handle, the forward call
returns `None` as the cache handle, leaves the instance's private cache state
(buffers and `max_cache_length`) exactly as it was, and computes attention
over exactly this call's `sq` freshly produced keys and values. -/
theorem C10_cache_off (cfg : Config) (query_key_value dense : Projection)
    (hidden_size : Nat) (garbage_k garbage_v : T4) (e : ℚ → ℚ)
    (torch_major sq b rot_pairs : Nat) (hidden_states : T3)
    (attention_mask : Option MaskT) (rotary_pos_emb : Option T3)
    (st : Option KVCacheSt)
    (hdvd : cfg.num_multi_query_groups_per_partition ∣
      cfg.num_attention_heads_per_partition) :
    ∃ out,
      chatglm_attention_forward_8eb45c cfg query_key_value dense hidden_size
          garbage_k garbage_v e torch_major sq b rot_pairs hidden_states attention_mask
          rotary_pos_emb none false st = .ok (out, none, st) ∧
      ∀ s bi o, out s bi o =
        linearApply dense cfg.hidden_size_per_partition
          (cross_attn_forward_8eb45c cfg torch_major e sq b sq
            (queryLayerOf cfg query_key_value hidden_size sq rot_pairs hidden_states
              rotary_pos_emb)
            (expandHeads cfg.num_attention_heads_per_partition
              cfg.num_multi_query_groups_per_partition
              (keyLayerOf cfg query_key_value hidden_size sq rot_pairs hidden_states
                rotary_pos_emb))
            (expandHeads cfg.num_attention_heads_per_partition
              cfg.num_multi_query_groups_per_partition
              (valueLayerOf cfg query_key_value hidden_size hidden_states))
            attention_mask s bi) o := by
  unfold chatglm_attention_forward_8eb45c
  dsimp only
  rw [broadcast_kv_heads_ok _ _ _ _ hdvd, broadcast_kv_heads_ok _ _ _ _ hdvd]
  exact ⟨_, rfl, fun s bi o => rfl⟩

/-! ### Claim C4: cache capacity invariant -/

/-- One append into an existing cache: the returned handle holds
`past + cur` rows and the new capacity is unchanged unless the append
overflows, in which case it becomes `past + cur + ALLOC_BLOCK`. -/
theorem cacheUpdate_some_ok (garbage_k garbage_v : T4) (cur : Nat) (kb vb : T4)
    (c : KVPair) (s0 : KVCacheSt) :
    ∃ h2 s2, cacheUpdate garbage_k garbage_v cur kb vb (some c) true (some s0)
        = .ok (h2, some h2, some s2) ∧
      h2.len = c.len + cur ∧
      s2.max_cache_length =
        (if s0.max_cache_length < c.len + cur
          then c.len + cur + KV_CACHE_ALLOC_BLOCK_LENGTH
          else s0.max_cache_length) := by
  by_cases hov : s0.max_cache_length < c.len + cur
  · simp only [cacheUpdate, if_pos hov]
    exact ⟨_, _, rfl, rfl, rfl⟩
  · simp only [cacheUpdate, if_neg hov]
    exact ⟨_, _, rfl, rfl, rfl⟩

/-- Threading an append run over list concatenation. -/
theorem appendMany_append (garbage_k garbage_v : T4)
    (l1 l2 : List (Nat × T4 × T4)) :
    ∀ start, appendMany garbage_k garbage_v start (l1 ++ l2)
      = match appendMany garbage_k garbage_v start l1 with
        | .ok p => appendMany garbage_k garbage_v p l2
        | .error err => .error err := by
  induction l1 with
  | nil => intro start; rfl
  | cons x rest ih =>
    intro start
    obtain ⟨cur, kb, vb⟩ := x
    show (match cacheUpdate garbage_k garbage_v cur kb vb start.1 true start.2 with
      | .ok (_, h, s) => appendMany garbage_k garbage_v (h, s) (rest ++ l2)
      | .error err => .error err) = _
    rcases hc : cacheUpdate garbage_k garbage_v cur kb vb start.1 true start.2 with err | p
    · simp only [appendMany, hc]
    · obtain ⟨o, h, s⟩ := p
      simp only [appendMany, hc, ih]

/-- Invariant of a run of appends from an in-capacity cache state: the run
succeeds, the handle length grows by the total token count, it stays within
the capacity, and the capacity never shrinks. -/
theorem appendMany_invariant (garbage_k garbage_v : T4) :
    ∀ (l : List (Nat × T4 × T4)) (c : KVPair) (s0 : KVCacheSt),
      c.len ≤ s0.max_cache_length →
      ∃ h2 s2, appendMany garbage_k garbage_v (some c, some s0) l = .ok (some h2, some s2) ∧
        h2.len = c.len + totalTokens l ∧
        h2.len ≤ s2.max_cache_length ∧
        s0.max_cache_length ≤ s2.max_cache_length := by
  intro l
  induction l with
  | nil =>
    intro c s0 hinv
    exact ⟨c, s0, rfl, by simp [totalTokens], hinv, le_refl _⟩
  | cons x rest ih =>
    intro c s0 hinv
    obtain ⟨cur, kb, vb⟩ := x
    obtain ⟨h1, s1, hstep, hlen, hcap⟩ :=
      cacheUpdate_some_ok garbage_k garbage_v cur kb vb c s0
    have hinv1 : h1.len ≤ s1.max_cache_length := by
      rw [hlen, hcap]
      by_cases hov : s0.max_cache_length < c.len + cur
      · rw [if_pos hov]; omega
      · rw [if_neg hov]; omega
    obtain ⟨h2, s2, hrun, hlen2, hcap2, hmono⟩ := ih h1 s1 hinv1
    refine ⟨h2, s2, ?_, ?_, hcap2, ?_⟩
    · show (match cacheUpdate garbage_k garbage_v cur kb vb (some c) true (some s0) with
        | .ok (_, h, s) => appendMany garbage_k garbage_v (h, s) rest
        | .error err => .error err) = _
      rw [hstep]
      exact hrun
    · rw [hlen2, hlen]
      simp [totalTokens]
      omega
    · refine le_trans ?_ hmono
      rw [hcap]
      by_cases hov : s0.max_cache_length < c.len + cur
      · rw [if_pos hov]; omega
      · rw [if_neg hov]

/-- C4: starting from an absent cache with caching requested, after any
nonempty sequence of appends the handle length equals the total token count
`T`, the capacity satisfies `capacity ≥ T` (and is at least one allocation
block), and one further append changes the capacity only by growing it by at
least `ALLOC_BLOCK_LENGTH = 256`. -/
theorem C4_capacity_invariant (garbage_k garbage_v : T4) (first : Nat × T4 × T4)
    (rest : List (Nat × T4 × T4)) :
    ∃ h2 s2, appendMany garbage_k garbage_v (none, none) (first :: rest)
        = .ok (some h2, some s2) ∧
      h2.len = totalTokens (first :: rest) ∧
      totalTokens (first :: rest) ≤ s2.max_cache_length ∧
      KV_CACHE_ALLOC_BLOCK_LENGTH ≤ s2.max_cache_length ∧
      (∀ x h3 s3,
        appendMany garbage_k garbage_v (none, none) ((first :: rest) ++ [x])
            = .ok (some h3, some s3) →
        s3.max_cache_length ≠ s2.max_cache_length →
        s2.max_cache_length + KV_CACHE_ALLOC_BLOCK_LENGTH ≤ s3.max_cache_length) := by
  obtain ⟨cur, kb, vb⟩ := first
  have hfirst : cacheUpdate garbage_k garbage_v cur kb vb none true none
      = .ok (⟨kb, vb, cur⟩,
          some ⟨kb, vb, cur⟩,
          some ⟨writeSlice garbage_k 0 cur kb, writeSlice garbage_v 0 cur vb,
            max KV_CACHE_ALLOC_MIN_LENGTH cur + KV_CACHE_ALLOC_BLOCK_LENGTH⟩) := rfl
  have hinv0 : (⟨kb, vb, cur⟩ : KVPair).len
      ≤ (⟨writeSlice garbage_k 0 cur kb, writeSlice garbage_v 0 cur vb,
          max KV_CACHE_ALLOC_MIN_LENGTH cur + KV_CACHE_ALLOC_BLOCK_LENGTH⟩
            : KVCacheSt).max_cache_length := by
    show cur ≤ max KV_CACHE_ALLOC_MIN_LENGTH cur + KV_CACHE_ALLOC_BLOCK_LENGTH
    have := Nat.le_max_right KV_CACHE_ALLOC_MIN_LENGTH cur
    omega
  obtain ⟨h2, s2, hrun, hlen, hcap, hmono⟩ :=
    appendMany_invariant garbage_k garbage_v rest _ _ hinv0
  have htot : totalTokens ((cur, kb, vb) :: rest) = cur + totalTokens rest := by
    simp [totalTokens]
  have hrun1 : appendMany garbage_k garbage_v (none, none) ((cur, kb, vb) :: rest)
      = .ok (some h2, some s2) := by
    show (match cacheUpdate garbage_k garbage_v cur kb vb none true none with
      | .ok (_, h, s) => appendMany garbage_k garbage_v (h, s) rest
      | .error err => .error err) = _
    rw [hfirst]
    exact hrun
  have hlen' : h2.len = cur + totalTokens rest := hlen
  have hcap' : h2.len ≤ s2.max_cache_length := hcap
  have hmono' : max KV_CACHE_ALLOC_MIN_LENGTH cur + KV_CACHE_ALLOC_BLOCK_LENGTH
      ≤ s2.max_cache_length := hmono
  refine ⟨h2, s2, hrun1, ?_, ?_, ?_, ?_⟩
  · omega
  · omega
  · omega
  · intro x h3 s3 hrun3 hne
    obtain ⟨xc, xk, xv⟩ := x
    rw [appendMany_append] at hrun3
    rw [hrun1] at hrun3
    dsimp only at hrun3
    obtain ⟨h1x, s1x, hstepx, hlenx, hcapx⟩ :=
      cacheUpdate_some_ok garbage_k garbage_v xc xk xv h2 s2
    have hrun3' : appendMany garbage_k garbage_v (some h2, some s2) [(xc, xk, xv)]
        = .ok (some h1x, some s1x) := by
      show (match cacheUpdate garbage_k garbage_v xc xk xv (some h2) true (some s2) with
        | .ok (_, h, s) => appendMany garbage_k garbage_v (h, s) []
        | .error err => .error err) = _
      rw [hstepx]
      rfl
    rw [hrun3'] at hrun3
    have hpair := Except.ok.inj hrun3
    have hs13 : s1x = s3 := Option.some.inj (congrArg Prod.snd hpair)
    subst hs13
    by_cases hov : s2.max_cache_length < h2.len + xc
    · rw [hcapx, if_pos hov] at hne ⊢
      omega
    · rw [hcapx, if_neg hov] at hne
      exact absurd rfl hne

/-! ### Claim C1: fused path vs manual path -/

theorem maskFill_some (m : MaskT) (score : ℚ) (bi s j : Nat) :
    maskFill (some m) score bi s j = if m bi s j then none else some score := rfl

theorem maskFill_none (score : ℚ) (bi s j : Nat) :
    maskFill none score bi s j = some score := rfl

/-- Two pointwise equal masked-score rows induce the same softmax-weighted
sum. -/
theorem weighted_softmax_congr (e : ℚ → ℚ) (sk : Nat) (f g : Nat → Option ℚ)
    (hfg : ∀ j, f j = g j) (vv : Nat → ℚ) :
    ∑ j in Finset.range sk, softmaxRow e sk f j * vv j
      = ∑ j in Finset.range sk, softmaxRow e sk g j * vv j := by
  rw [funext hfg]

/-- The divisor of the head-merging view is positive whenever some merged
index is in range. -/
theorem hn_pos_of_lt {np hn p : Nat} (hp : p < np * hn) : 0 < hn := by
  rcases Nat.eq_zero_or_pos hn with h0 | h
  · rw [h0, Nat.mul_zero] at hp; omega
  · exact h

/-- The head index recovered by the merging view is in range. -/
theorem head_lt_of_lt {np hn p : Nat} (hp : p < np * hn) : p / hn < np := by
  have hhn := hn_pos_of_lt hp
  exact (Nat.div_lt_iff_lt_mul hhn).mpr hp

/-- With no configured `coeff`, the attention scores collapse to the scaled
dot product of the recovered (batch, head) pair. -/
theorem attnScores_collapse (cfg : Config) (query key : T4) (bi h s : Nat)
    (hcoeff : cfg.coeff = none) (hnp : 0 < cfg.num_attention_heads_per_partition)
    (hh : h < cfg.num_attention_heads_per_partition) :
    ∀ j, attnScores cfg query key bi h s j
      = (1 / cfg.norm_factor) *
          ∑ t in Finset.range cfg.hidden_size_per_attention_head,
            query s bi h t * key bi h j t := by
  intro j
  simp only [attnScores, hcoeff, rawScoresFlat]
  rw [flat_div bi h hnp hh, flat_mod bi h hh]

/-- The manual path evaluated at a merged output coordinate `p`. -/
theorem pathB_apply (cfg : Config) (e : ℚ → ℚ) (sq b sk : Nat)
    (query key value : T4) (mask : Option MaskT) (s bi p : Nat)
    (hnp : 0 < cfg.num_attention_heads_per_partition)
    (hph : p / cfg.hidden_size_per_attention_head
      < cfg.num_attention_heads_per_partition) :
    pathB cfg e sq b sk query key value mask s bi p
      = ∑ j in Finset.range sk,
          softmaxRow e sk
            (fun j => maskFill (effectiveMask sq sk mask)
              (attnScores cfg query key bi (p / cfg.hidden_size_per_attention_head) s j)
              bi s j) j
            * value bi (p / cfg.hidden_size_per_attention_head) j
                (p % cfg.hidden_size_per_attention_head) := by
  simp only [pathB, attnProbs, maskedScores, softmaxRow]
  rw [flat_div bi _ hnp hph, flat_mod bi _ hph]

/-- The fused path and the manual path agree at every merged output
coordinate of the valid range, for every mask situation, when no extra score
coefficient is configured (the fused primitive never applies `self.coeff`). -/
theorem pathA_eq_pathB (cfg : Config) (e : ℚ → ℚ) (sq b sk : Nat)
    (query key value : T4) (mask : Option MaskT)
    (hcoeff : cfg.coeff = none) (s bi p : Nat)
    (hp : p < cfg.num_attention_heads_per_partition
      * cfg.hidden_size_per_attention_head) :
    pathA cfg e sq b sk query key value mask s bi p
      = pathB cfg e sq b sk query key value mask s bi p := by
  have hhn : 0 < cfg.hidden_size_per_attention_head := hn_pos_of_lt hp
  have hnp : 0 < cfg.num_attention_heads_per_partition := by
    rcases Nat.eq_zero_or_pos cfg.num_attention_heads_per_partition with h0 | h
    · rw [h0, Nat.zero_mul] at hp; omega
    · exact h
  have hph := head_lt_of_lt hp
  have hub := attnScores_collapse cfg query key bi
    (p / cfg.hidden_size_per_attention_head) s hcoeff hnp hph
  rw [pathB_apply cfg e sq b sk query key value mask s bi p hnp hph]
  rcases mask with _ | m
  · by_cases hsq : sq = sk
    · subst hsq
      have hm : effectiveMask sq sq (none : Option MaskT)
          = some (fun _ s j => decide (s < j)) := by
        simp [effectiveMask]
      simp only [pathA, if_pos rfl, scaled_dot_product_attention]
      apply weighted_softmax_congr
      intro j
      rw [hm, maskFill_some]
      by_cases hj : j ≤ s
      · have hs : ¬ ((fun _ s j => decide (s < j)) bi s j = true) :=
          fun hc => absurd (of_decide_eq_true hc) (by omega)
        rw [if_pos hj, if_neg hs, hub j]
      · have hs : ((fun _ s j => decide (s < j)) bi s j = true) :=
          decide_eq_true (by omega)
        rw [if_neg hj, if_pos hs]
    · simp only [pathA, if_neg hsq, scaled_dot_product_attention]
      apply weighted_softmax_congr
      intro j
      simp only [effectiveMask, if_neg hsq, maskFill_none, hub j]
  · simp only [pathA, scaled_dot_product_attention]
    apply weighted_softmax_congr
    intro j
    simp only [effectiveMask, maskFill_some]
    cases hmb : m bi s j
    · simp [hmb, hub j]
    · simp [hmb]

/-- C1: whenever the fused strategy is applicable (`query_len > 1` and a
PyTorch-2 fused primitive available) and no extra score coefficient is
configured, the dispatched attention core — which then takes the fused Path A
— produces exactly the output of the manual score/softmax/weighted-sum Path B
at every valid output coordinate, for every mask situation, in exact
arithmetic. -/
theorem C1_fused_equals_manual (cfg : Config) (e : ℚ → ℚ) (torch_major sq b sk : Nat)
    (query key value : T4) (mask : Option MaskT)
    (hsq : 1 < sq) (htm : 2 ≤ torch_major) (hcoeff : cfg.coeff = none)
    (s bi p : Nat)
    (hp : p < cfg.num_attention_heads_per_partition
      * cfg.hidden_size_per_attention_head) :
    cross_attn_forward_8eb45c cfg torch_major e sq b sk query key value mask s bi p
      = pathB cfg e sq b sk query key value mask s bi p := by
  rw [cross_attn_forward_8eb45c, if_pos ⟨hsq, htm⟩]
  exact pathA_eq_pathB cfg e sq b sk query key value mask hcoeff s bi p hp

/-! ### Claim C3: incremental decoding equals one-shot processing -/

/-- A linear module only reads the first `in_features` coordinates. -/
theorem linearApply_congr (pr : Projection) (n : Nat) (x y : Nat → ℚ) (o : Nat)
    (hxy : ∀ t, t < n → x t = y t) : linearApply pr n x o = linearApply pr n y o := by
  unfold linearApply
  congr 1
  apply Finset.sum_congr rfl
  intro t ht
  rw [hxy t (Finset.mem_range.mp ht)]

/-- Attention scores only read the query row and the key rows of the
recovered (batch, head) pair. -/
theorem attnScores_congr (cfg : Config) (q1 k1 q2 k2 : T4) (bi h s1 s2 j : Nat)
    (hnp : 0 < cfg.num_attention_heads_per_partition)
    (hh : h < cfg.num_attention_heads_per_partition)
    (hq : ∀ d, d < cfg.hidden_size_per_attention_head → q1 s1 bi h d = q2 s2 bi h d)
    (hk : ∀ d, d < cfg.hidden_size_per_attention_head → k1 bi h j d = k2 bi h j d) :
    attnScores cfg q1 k1 bi h s1 j = attnScores cfg q2 k2 bi h s2 j := by
  have hflat : ∀ (q k : T4) (s : Nat),
      rawScoresFlat cfg q k (bi * cfg.num_attention_heads_per_partition + h) s j
        = (1 / cfg.norm_factor) *
            ∑ d in Finset.range cfg.hidden_size_per_attention_head,
              q s bi h d * k bi h j d := by
    intro q k s
    simp only [rawScoresFlat]
    rw [flat_div bi h hnp hh, flat_mod bi h hh]
  have hsum : (∑ d in Finset.range cfg.hidden_size_per_attention_head,
        q1 s1 bi h d * k1 bi h j d)
      = ∑ d in Finset.range cfg.hidden_size_per_attention_head,
          q2 s2 bi h d * k2 bi h j d := by
    apply Finset.sum_congr rfl
    intro d hd
    rw [hq d (Finset.mem_range.mp hd), hk d (Finset.mem_range.mp hd)]
  rcases hco : cfg.coeff with _ | cc
  · simp only [attnScores, hco]
    rw [hflat, hflat, hsum]
  · simp only [attnScores, hco]
    rw [hflat, hflat, hsum]

/-- A softmax-weighted sum over a window of `i + 1` key positions equals the
same sum over `T ≥ i + 1` positions whose scores agree on the window and are
`-inf` outside it. -/
theorem row_restrict (e : ℚ → ℚ) (T i : Nat) (hiT : i < T) (f g : Nat → Option ℚ)
    (vv vw : Nat → ℚ)
    (hfg : ∀ j, j < i + 1 → f j = g j)
    (hgnone : ∀ j, i + 1 ≤ j → j < T → g j = none)
    (hvw : ∀ j, j < i + 1 → vv j = vw j) :
    ∑ j in Finset.range (i + 1), softmaxRow e (i + 1) f j * vv j
      = ∑ j in Finset.range T, softmaxRow e T g j * vw j := by
  have hsub : Finset.range (i + 1) ⊆ Finset.range T := Finset.range_subset.mpr (by omega)
  have hden : ∑ k in Finset.range T, expScore e (g k)
      = ∑ k in Finset.range (i + 1), expScore e (f k) := by
    rw [sum_expScore_vanish e g (i + 1) T (by omega) hgnone]
    apply Finset.sum_congr rfl
    intro k hk
    rw [hfg k (Finset.mem_range.mp hk)]
  calc ∑ j in Finset.range (i + 1), softmaxRow e (i + 1) f j * vv j
      = ∑ j in Finset.range (i + 1), softmaxRow e T g j * vw j := by
        apply Finset.sum_congr rfl
        intro j hj
        have hjlt := Finset.mem_range.mp hj
        rw [softmaxRow, softmaxRow, hden, hfg j hjlt, hvw j hjlt]
    _ = ∑ j in Finset.range T, softmaxRow e T g j * vw j := by
        apply Finset.sum_subset hsub
        intro j hjT hjnot
        have hjge : i + 1 ≤ j := by
          by_contra hcon
          exact hjnot (Finset.mem_range.mpr (by omega))
        rw [softmaxRow, hgnone j hjge (Finset.mem_range.mp hjT)]
        show (0 : ℚ) / _ * _ = 0
        rw [zero_div, zero_mul]

/-- With a single-row query the dispatcher always takes the manual path. -/
theorem cross_attn_single (cfg : Config) (tm : Nat) (e : ℚ → ℚ) (b sk : Nat)
    (q k v : T4) (mask : Option MaskT) :
    cross_attn_forward_8eb45c cfg tm e 1 b sk q k v mask
      = pathB cfg e 1 b sk q k v mask := by
  rw [cross_attn_forward_8eb45c, if_neg]
  rintro ⟨hcon, _⟩
  omega

/-- With no configured coefficient, the dispatched attention core agrees with
the manual path at every valid output coordinate whichever strategy it
takes. -/
theorem cross_attn_eq_pathB (cfg : Config) (tm : Nat) (e : ℚ → ℚ) (sq b sk : Nat)
    (q k v : T4) (mask : Option MaskT) (hcoeff : cfg.coeff = none) (s bi p : Nat)
    (hp : p < cfg.num_attention_heads_per_partition
      * cfg.hidden_size_per_attention_head) :
    cross_attn_forward_8eb45c cfg tm e sq b sk q k v mask s bi p
      = pathB cfg e sq b sk q k v mask s bi p := by
  rw [cross_attn_forward_8eb45c]
  by_cases hc : 1 < sq ∧ 2 ≤ tm
  · rw [if_pos hc]
    exact pathA_eq_pathB cfg e sq b sk q k v mask hcoeff s bi p hp
  · rw [if_neg hc]

/-- Attention on a single query over a window of keys/values agreeing with a
causally masked full run: row `i` of the full manual path equals row `0` of
the single-token manual path over the first `i + 1` keys. -/
theorem pathB_single_vs_causal (cfg : Config) (e : ℚ → ℚ) (b T i : Nat) (hiT : i < T)
    (qI kI vI qF kF vF : T4)
    (hq : ∀ bi h d, qI 0 bi h d = qF i bi h d)
    (hk : ∀ bi h t d, t < i + 1 → kI bi h t d = kF bi h t d)
    (hv : ∀ bi h t d, t < i + 1 → vI bi h t d = vF bi h t d)
    (bi p : Nat)
    (hp : p < cfg.num_attention_heads_per_partition
      * cfg.hidden_size_per_attention_head) :
    pathB cfg e 1 b (i + 1) qI kI vI none 0 bi p
      = pathB cfg e T b T qF kF vF none i bi p := by
  have hhn := hn_pos_of_lt hp
  have hnp : 0 < cfg.num_attention_heads_per_partition := by
    rcases Nat.eq_zero_or_pos cfg.num_attention_heads_per_partition with h0 | h
    · rw [h0, Nat.zero_mul] at hp; omega
    · exact h
  have hph := head_lt_of_lt hp
  have hmT : effectiveMask T T (none : Option MaskT)
      = some (fun _ s j => decide (s < j)) := by
    simp [effectiveMask]
  have hsc : ∀ j, j < i + 1 →
      attnScores cfg qI kI bi (p / cfg.hidden_size_per_attention_head) 0 j
        = attnScores cfg qF kF bi (p / cfg.hidden_size_per_attention_head) i j := by
    intro j hj
    exact attnScores_congr cfg qI kI qF kF bi _ 0 i j hnp hph
      (fun d _ => hq bi _ d) (fun d _ => hk bi _ j d hj)
  rw [pathB_apply cfg e 1 b (i + 1) qI kI vI none 0 bi p hnp hph,
    pathB_apply cfg e T b T qF kF vF none i bi p hnp hph]
  apply row_restrict e T i hiT
  · intro j hj
    rw [hmT, maskFill_some]
    have hnomask : ¬ ((fun _ s j => decide (s < j)) bi i j = true) :=
      fun hc => absurd (of_decide_eq_true hc) (by omega)
    rw [if_neg hnomask, ← hsc j hj]
    rcases Nat.eq_zero_or_pos i with hi0 | hipos
    · subst hi0
      have hm1 : effectiveMask 1 1 (none : Option MaskT)
          = some (fun _ s j => decide (s < j)) := by
        simp [effectiveMask]
      have hj0 : j = 0 := by omega
      subst hj0
      rw [hm1, maskFill_some, if_neg]
      exact fun hc => absurd (of_decide_eq_true hc) (by omega)
    · have hm1 : effectiveMask 1 (i + 1) (none : Option MaskT) = none := by
        have hne : (1 : Nat) ≠ i + 1 := by omega
        simp [effectiveMask, hne]
      rw [hm1, maskFill_none]
  · intro j hj1 hjT
    rw [hmT, maskFill_some, if_pos (decide_eq_true (by omega))]
  · intro j hj
    rw [hv bi _ j _ hj]

/-- The key/value layers after the multi-query expansion. -/
def expandedKeyLayer (cfg : Config) (query_key_value : Projection)
    (hidden_size sq rot_pairs : Nat) (hidden_states : T3) (rotary_pos_emb : Option T3) : T4 :=
  expandHeads cfg.num_attention_heads_per_partition
    cfg.num_multi_query_groups_per_partition
    (keyLayerOf cfg query_key_value hidden_size sq rot_pairs hidden_states rotary_pos_emb)

/-- The value layer after the multi-query expansion. -/
def expandedValueLayer (cfg : Config) (query_key_value : Projection)
    (hidden_size : Nat) (hidden_states : T3) : T4 :=
  expandHeads cfg.num_attention_heads_per_partition
    cfg.num_multi_query_groups_per_partition
    (valueLayerOf cfg query_key_value hidden_size hidden_states)

/-- Row `0` of the single-token query layer at shifted position `i` is row `i`
of the full query layer (with the matching rotary slice). -/
theorem shifted_query_row (cfg : Config) (qkv : Projection) (H rp T i : Nat) (hiT : i < T)
    (hidden : T3) (rope : Option T3) :
    ∀ bi h d, queryLayerOf cfg qkv H 1 rp (shiftRows i hidden)
        (Option.map (shiftRows i) rope) 0 bi h d
      = queryLayerOf cfg qkv H T rp hidden rope i bi h d := by
  intro bi h d
  have hsh : shiftRows i hidden 0 bi = hidden i bi := by
    funext c
    simp [shiftRows]
  rcases rope with _ | rc
  · simp [queryLayerOf, splitQuery, mixedLayer, shiftRows, hsh]
  · simp [queryLayerOf, apply_rotary_pos_emb, splitQuery, mixedLayer, shiftRows, hiT, hsh]

/-- Row `0` of the single-token key layer at shifted position `i` is row `i`
of the full key layer. -/
theorem shifted_key_row (cfg : Config) (qkv : Projection) (H rp T i : Nat) (hiT : i < T)
    (hidden : T3) (rope : Option T3) :
    ∀ bi h d, keyLayerOf cfg qkv H 1 rp (shiftRows i hidden)
        (Option.map (shiftRows i) rope) 0 bi h d
      = keyLayerOf cfg qkv H T rp hidden rope i bi h d := by
  intro bi h d
  have hsh : shiftRows i hidden 0 bi = hidden i bi := by
    funext c
    simp [shiftRows]
  rcases rope with _ | rc
  · simp [keyLayerOf, splitKey, mixedLayer, shiftRows, hsh]
  · simp [keyLayerOf, apply_rotary_pos_emb, splitKey, mixedLayer, shiftRows, hiT, hsh]

/-- Row `0` of the single-token value layer at shifted position `i` is row `i`
of the full value layer. -/
theorem shifted_value_row (cfg : Config) (qkv : Projection) (H i : Nat)
    (hidden : T3) :
    ∀ bi h d, valueLayerOf cfg qkv H (shiftRows i hidden) 0 bi h d
      = valueLayerOf cfg qkv H hidden i bi h d := by
  intro bi h d
  have hsh : shiftRows i hidden 0 bi = hidden i bi := by
    funext c
    simp [shiftRows]
  simp [valueLayerOf, splitValue, mixedLayer, shiftRows, hsh]

/-- The multi-query expansion commutes with taking the shifted row. -/
theorem shifted_expanded_key_row (cfg : Config) (qkv : Projection) (H rp T i : Nat)
    (hiT : i < T) (hidden : T3) (rope : Option T3) :
    ∀ bi hh d, expandedKeyLayer cfg qkv H 1 rp (shiftRows i hidden)
        (Option.map (shiftRows i) rope) bi hh 0 d
      = expandedKeyLayer cfg qkv H T rp hidden rope bi hh i d := by
  intro bi hh d
  simp only [expandedKeyLayer, expandHeads]
  exact shifted_key_row cfg qkv H rp T i hiT hidden rope bi _ d

/-- The multi-query expansion commutes with taking the shifted row (value). -/
theorem shifted_expanded_value_row (cfg : Config) (qkv : Projection) (H i : Nat)
    (hidden : T3) :
    ∀ bi hh d, expandedValueLayer cfg qkv H (shiftRows i hidden) bi hh 0 d
      = expandedValueLayer cfg qkv H hidden bi hh i d := by
  intro bi hh d
  simp only [expandedValueLayer, expandHeads]
  exact shifted_value_row cfg qkv H i hidden bi _ d

/-- A forward call without a prior handle and with caching on, fully
characterized: the attention runs over this call's expanded keys/values, the
returned handle is exactly those tensors with length `sq`, and the private
buffers are freshly allocated with them written into the first `sq` slots. -/
theorem forward_fresh_spec (cfg : Config) (qkv dense : Projection) (H : Nat)
    (gk gv : T4) (e : ℚ → ℚ) (tm sq b rp : Nat) (hidden : T3) (mask : Option MaskT)
    (rope : Option T3) (st : Option KVCacheSt)
    (hdvd : cfg.num_multi_query_groups_per_partition ∣
      cfg.num_attention_heads_per_partition) :
    chatglm_attention_forward_8eb45c cfg qkv dense H gk gv e tm sq b rp hidden mask rope
        none true st
      = .ok
        (fun s bi o => linearApply dense
            (cfg.num_attention_heads_per_partition * cfg.hidden_size_per_attention_head)
            (cross_attn_forward_8eb45c cfg tm e sq b sq
              (queryLayerOf cfg qkv H sq rp hidden rope)
              (expandedKeyLayer cfg qkv H sq rp hidden rope)
              (expandedValueLayer cfg qkv H hidden)
              mask s bi) o,
          some ⟨expandedKeyLayer cfg qkv H sq rp hidden rope,
                expandedValueLayer cfg qkv H hidden, sq⟩,
          some ⟨writeSlice gk 0 sq (expandedKeyLayer cfg qkv H sq rp hidden rope),
                writeSlice gv 0 sq (expandedValueLayer cfg qkv H hidden),
                max KV_CACHE_ALLOC_MIN_LENGTH sq + KV_CACHE_ALLOC_BLOCK_LENGTH⟩) := by
  unfold chatglm_attention_forward_8eb45c
  dsimp only
  rw [broadcast_kv_heads_ok _ _ _ _ hdvd, broadcast_kv_heads_ok _ _ _ _ hdvd]
  rfl

/-- A forward call appending into an existing handle with caching on, under
the invariant that handle and private buffers agree with reference tensors on
the valid region: characterizes the result, the new handle (full valid
region) and its contents. -/
theorem forward_append_spec (cfg : Config) (qkv dense : Projection) (H : Nat)
    (gk gv : T4) (e : ℚ → ℚ) (tm sq b rp : Nat) (hidden : T3) (rope : Option T3)
    (c : KVPair) (s0 : KVCacheSt)
    (hdvd : cfg.num_multi_query_groups_per_partition ∣
      cfg.num_attention_heads_per_partition)
    (KF VF : T4)
    (hc : ∀ bi hh t d, t < c.len →
      c.k bi hh t d = KF bi hh t d ∧ c.v bi hh t d = VF bi hh t d)
    (hs : ∀ bi hh t d, t < c.len →
      s0.k bi hh t d = KF bi hh t d ∧ s0.v bi hh t d = VF bi hh t d) :
    ∃ out h1 s1,
      chatglm_attention_forward_8eb45c cfg qkv dense H gk gv e tm sq b rp hidden none rope
          (some c) true (some s0) = .ok (out, some h1, some s1) ∧
      h1.len = c.len + sq ∧ h1.k = s1.k ∧ h1.v = s1.v ∧
      (∀ bi hh t d, t < c.len →
        h1.k bi hh t d = KF bi hh t d ∧ h1.v bi hh t d = VF bi hh t d) ∧
      (∀ bi hh t d, c.len ≤ t → t < c.len + sq →
        h1.k bi hh t d = expandedKeyLayer cfg qkv H sq rp hidden rope bi hh (t - c.len) d ∧
        h1.v bi hh t d = expandedValueLayer cfg qkv H hidden bi hh (t - c.len) d) ∧
      (∀ s bi o, out s bi o = linearApply dense
        (cfg.num_attention_heads_per_partition * cfg.hidden_size_per_attention_head)
        (cross_attn_forward_8eb45c cfg tm e sq b (c.len + sq)
          (queryLayerOf cfg qkv H sq rp hidden rope) h1.k h1.v none s bi) o) := by
  unfold chatglm_attention_forward_8eb45c
  dsimp only
  rw [broadcast_kv_heads_ok _ _ _ _ hdvd, broadcast_kv_heads_ok _ _ _ _ hdvd]
  by_cases hov : s0.max_cache_length < c.len + sq
  · simp only [cacheUpdate, if_pos hov]
    refine ⟨_, _, _, rfl, rfl, rfl, rfl, ?_, ?_, fun s bi o => rfl⟩
    · intro bi hh t d ht
      have hnot : ¬ (c.len ≤ t ∧ t < c.len + sq) := by omega
      have hin : 0 ≤ t ∧ t < 0 + c.len := by omega
      refine ⟨?_, ?_⟩
      · simp only [writeSlice, if_neg hnot, if_pos hin, Nat.sub_zero]
        exact (hc bi hh t d ht).1
      · simp only [writeSlice, if_neg hnot, if_pos hin, Nat.sub_zero]
        exact (hc bi hh t d ht).2
    · intro bi hh t d ht1 ht2
      have hin : c.len ≤ t ∧ t < c.len + sq := ⟨ht1, ht2⟩
      exact ⟨by simp only [writeSlice, if_pos hin]; rfl,
        by simp only [writeSlice, if_pos hin]; rfl⟩
  · simp only [cacheUpdate, if_neg hov]
    refine ⟨_, _, _, rfl, rfl, rfl, rfl, ?_, ?_, fun s bi o => rfl⟩
    · intro bi hh t d ht
      have hnot : ¬ (c.len ≤ t ∧ t < c.len + sq) := by omega
      refine ⟨?_, ?_⟩
      · simp only [writeSlice, if_neg hnot]
        exact (hs bi hh t d ht).1
      · simp only [writeSlice, if_neg hnot]
        exact (hs bi hh t d ht).2
    · intro bi hh t d ht1 ht2
      have hin : c.len ≤ t ∧ t < c.len + sq := ⟨ht1, ht2⟩
      exact ⟨by simp only [writeSlice, if_pos hin]; rfl,
        by simp only [writeSlice, if_pos hin]; rfl⟩

/-- Invariant of token-by-token decoding with carried cache: step `i`
succeeds, its returned handle holds exactly rows `0..i` of the full-sequence
expanded keys/values (as do the private buffers), and its output row equals
row `i` of the full-sequence manual-path attention output. -/
theorem incremental_invariant (cfg : Config) (qkv dense : Projection) (H : Nat)
    (gk gv : T4) (e : ℚ → ℚ) (tm b rp T : Nat) (hidden : T3) (rope : Option T3)
    (hdvd : cfg.num_multi_query_groups_per_partition ∣
      cfg.num_attention_heads_per_partition) :
    ∀ i, i < T →
    ∃ out h1 s1,
      incrementalRun cfg qkv dense H gk gv e tm b rp hidden rope i
        = .ok (out, some h1, some s1) ∧
      h1.len = i + 1 ∧
      (∀ bi hh t d, t < i + 1 →
        h1.k bi hh t d = expandedKeyLayer cfg qkv H T rp hidden rope bi hh t d ∧
        h1.v bi hh t d = expandedValueLayer cfg qkv H hidden bi hh t d) ∧
      (∀ bi hh t d, t < i + 1 →
        s1.k bi hh t d = expandedKeyLayer cfg qkv H T rp hidden rope bi hh t d ∧
        s1.v bi hh t d = expandedValueLayer cfg qkv H hidden bi hh t d) ∧
      (∀ bi o, out 0 bi o = linearApply dense
        (cfg.num_attention_heads_per_partition * cfg.hidden_size_per_attention_head)
        (pathB cfg e T b T (queryLayerOf cfg qkv H T rp hidden rope)
          (expandedKeyLayer cfg qkv H T rp hidden rope)
          (expandedValueLayer cfg qkv H hidden) none i bi) o) := by
  intro i
  induction i with
  | zero =>
    intro hiT
    have h0 : incrementalRun cfg qkv dense H gk gv e tm b rp hidden rope 0
        = chatglm_attention_forward_8eb45c cfg qkv dense H gk gv e tm 1 b rp
            (shiftRows 0 hidden) none (Option.map (shiftRows 0) rope) none true none := rfl
    rw [h0, forward_fresh_spec cfg qkv dense H gk gv e tm 1 b rp
      (shiftRows 0 hidden) none (Option.map (shiftRows 0) rope) none hdvd]
    have hkey : ∀ bi hh t d, t < 1 →
        expandedKeyLayer cfg qkv H 1 rp (shiftRows 0 hidden)
            (Option.map (shiftRows 0) rope) bi hh t d
          = expandedKeyLayer cfg qkv H T rp hidden rope bi hh t d := by
      intro bi hh t d ht
      have ht0 : t = 0 := by omega
      subst ht0
      exact shifted_expanded_key_row cfg qkv H rp T 0 hiT hidden rope bi hh d
    have hval : ∀ bi hh t d, t < 1 →
        expandedValueLayer cfg qkv H (shiftRows 0 hidden) bi hh t d
          = expandedValueLayer cfg qkv H hidden bi hh t d := by
      intro bi hh t d ht
      have ht0 : t = 0 := by omega
      subst ht0
      exact shifted_expanded_value_row cfg qkv H 0 hidden bi hh d
    refine ⟨_, _, _, rfl, rfl, ?_, ?_, ?_⟩
    · intro bi hh t d ht
      exact ⟨hkey bi hh t d ht, hval bi hh t d ht⟩
    · intro bi hh t d ht
      have hin : 0 ≤ t ∧ t < 0 + 1 := by omega
      refine ⟨?_, ?_⟩
      · show writeSlice gk 0 1 _ bi hh t d = _
        simp only [writeSlice, if_pos hin, Nat.sub_zero]
        exact hkey bi hh t d (by omega)
      · show writeSlice gv 0 1 _ bi hh t d = _
        simp only [writeSlice, if_pos hin, Nat.sub_zero]
        exact hval bi hh t d (by omega)
    · intro bi o
      show linearApply dense _
          (cross_attn_forward_8eb45c cfg tm e 1 b 1 _ _ _ none 0 bi) o = _
      rw [cross_attn_single]
      apply linearApply_congr
      intro p hp
      exact pathB_single_vs_causal cfg e b T 0 hiT _ _ _ _ _ _
        (fun bi h d => shifted_query_row cfg qkv H rp T 0 hiT hidden rope bi h d)
        (fun bi h t d ht => hkey bi h t d ht)
        (fun bi h t d ht => hval bi h t d ht)
        bi p hp
  | succ i ih =>
    intro hiT
    have hiT' : i < T := by omega
    obtain ⟨outP, hP, sP, hrunP, hlenP, hhandP, hstP, houtP⟩ := ih hiT'
    obtain ⟨out, h1, s1, hrun1, hlen1, hks, hvs, hpre, hwin, hout⟩ :=
      forward_append_spec cfg qkv dense H gk gv e tm 1 b rp
        (shiftRows (i + 1) hidden) (Option.map (shiftRows (i + 1)) rope) hP sP hdvd
        (expandedKeyLayer cfg qkv H T rp hidden rope)
        (expandedValueLayer cfg qkv H hidden)
        (fun bi hh t d ht => hhandP bi hh t d (by omega))
        (fun bi hh t d ht => hstP bi hh t d (by omega))
    have hstep : incrementalRun cfg qkv dense H gk gv e tm b rp hidden rope (i + 1)
        = chatglm_attention_forward_8eb45c cfg qkv dense H gk gv e tm 1 b rp
            (shiftRows (i + 1) hidden) none (Option.map (shiftRows (i + 1)) rope)
            (some hP) true (some sP) := by
      show (match incrementalRun cfg qkv dense H gk gv e tm b rp hidden rope i with
        | .ok (_, h, s) =>
          chatglm_attention_forward_8eb45c cfg qkv dense H gk gv e tm 1 b rp
            (shiftRows (i + 1) hidden) none (Option.map (shiftRows (i + 1)) rope) h true s
        | .error err => .error err) = _
      rw [hrunP]
    have hcontent : ∀ bi hh t d, t < i + 1 + 1 →
        h1.k bi hh t d = expandedKeyLayer cfg qkv H T rp hidden rope bi hh t d ∧
        h1.v bi hh t d = expandedValueLayer cfg qkv H hidden bi hh t d := by
      intro bi hh t d ht
      by_cases htP : t < hP.len
      · exact hpre bi hh t d htP
      · have htw : hP.len ≤ t ∧ t < hP.len + 1 := by omega
        obtain ⟨hw1, hw2⟩ := hwin bi hh t d htw.1 htw.2
        have hteq : t = i + 1 := by omega
        have htsub : t - hP.len = 0 := by omega
        subst hteq
        rw [hw1, hw2, htsub]
        exact ⟨shifted_expanded_key_row cfg qkv H rp T (i + 1) hiT hidden rope bi hh d,
          shifted_expanded_value_row cfg qkv H (i + 1) hidden bi hh d⟩
    refine ⟨out, h1, s1, by rw [hstep]; exact hrun1, by omega, hcontent, ?_, ?_⟩
    · intro bi hh t d ht
      rw [← hks, ← hvs]
      exact hcontent bi hh t d ht
    · intro bi o
      rw [hout 0 bi o, hlenP, cross_attn_single]
      apply linearApply_congr
      intro p hp
      exact pathB_single_vs_causal cfg e b T (i + 1) hiT _ _ _ _ _ _
        (fun bi h d => shifted_query_row cfg qkv H rp T (i + 1) hiT hidden rope bi h d)
        (fun bi h t d ht => (hcontent bi h t d ht).1)
        (fun bi h t d ht => (hcontent bi h t d ht).2)
        bi p hp

/-- C3: processing a sequence causally with no explicit mask token-by-token —
each single-token forward call carrying the cache handle and private state
returned by the previous one, with the rotary slice for its position —
produces at every step `i` the same attention output row as a single forward
call processing all `T` tokens at once (provided no extra score coefficient
is configured, which the one-shot call's fused path would ignore). -/
theorem C3_incremental_equals_full (cfg : Config) (qkv dense : Projection) (H : Nat)
    (gk gv : T4) (e : ℚ → ℚ) (tm b rp T : Nat) (hidden : T3) (rope : Option T3)
    (hdvd : cfg.num_multi_query_groups_per_partition ∣
      cfg.num_attention_heads_per_partition)
    (hcoeff : cfg.coeff = none) (i : Nat) (hiT : i < T) :
    ∃ outI hI sI outF hF sF,
      incrementalRun cfg qkv dense H gk gv e tm b rp hidden rope i
        = .ok (outI, hI, sI) ∧
      chatglm_attention_forward_8eb45c cfg qkv dense H gk gv e tm T b rp hidden none rope
          none true none = .ok (outF, hF, sF) ∧
      ∀ bi o, outI 0 bi o = outF i bi o := by
  obtain ⟨out, h1, s1, hrun, hlen, hhand, hst, hout⟩ :=
    incremental_invariant cfg qkv dense H gk gv e tm b rp T hidden rope hdvd i hiT
  have hfull := forward_fresh_spec cfg qkv dense H gk gv e tm T b rp hidden none rope
    none hdvd
  refine ⟨out, some h1, some s1, _, _, _, hrun, hfull, ?_⟩
  intro bi o
  rw [hout bi o]
  show _ = linearApply dense _
    (cross_attn_forward_8eb45c cfg tm e T b T
      (queryLayerOf cfg qkv H T rp hidden rope)
      (expandedKeyLayer cfg qkv H T rp hidden rope)
      (expandedValueLayer cfg qkv H hidden) none i bi) o
  apply linearApply_congr
  intro p hp
  exact (cross_attn_eq_pathB cfg tm e T b T _ _ _ none hcoeff i bi p hp).symm

/-! ### Concrete witnesses -/

/-- A one-head, one-group, one-feature configuration with unit norm factor. -/
def cfg1 : Config := ⟨1, 1, 1, 1, none⟩

/-- A projection whose weights are all one and biases all zero. -/
def proj1 : Projection := ⟨fun _ _ => 1, fun _ => 0⟩

/-- The all-ones rank-4 tensor. -/
def ones4 : T4 := fun _ _ _ _ => 1

/-- The all-zeros rank-4 tensor. -/
def zeros4 : T4 := fun _ _ _ _ => 0

/-- The all-fives rank-4 tensor. -/
def fives4 : T4 := fun _ _ _ _ => 5

/-- The all-ones rank-3 tensor. -/
def ones3 : T3 := fun _ _ _ => 1

/-- The constant-one stand-in for the softmax exponential. -/
def e1 : ℚ → ℚ := fun _ => 1

theorem C1_witness :
    ((1 : Nat) < 2 ∧ (2 : Nat) ≤ 2 ∧ cfg1.coeff = none ∧
      (0 : Nat) < cfg1.num_attention_heads_per_partition
        * cfg1.hidden_size_per_attention_head) ∧
    cross_attn_forward_8eb45c cfg1 2 e1 2 1 2 ones4 ones4 ones4 none 0 0 0
      = pathB cfg1 e1 2 1 2 ones4 ones4 ones4 none 0 0 0 :=
  ⟨⟨by decide, by decide, rfl, by decide⟩,
    C1_fused_equals_manual cfg1 e1 2 2 1 2 ones4 ones4 ones4 none
      (by decide) (by decide) rfl 0 0 0 (by decide)⟩

theorem C2_witness :
    (cfg1.num_multi_query_groups_per_partition ∣
      cfg1.num_attention_heads_per_partition) ∧
    (∃ out h1 s1,
      chatglm_attention_forward_8eb45c cfg1 proj1 proj1 1 zeros4 zeros4 e1 2 1 1 0 ones3
          none none (some ⟨fives4, fives4, 1⟩) true (some ⟨fives4, fives4, 769⟩)
        = .ok (out, some h1, some s1) ∧
      h1.len = (⟨fives4, fives4, 1⟩ : KVPair).len + 1 ∧ h1.k = s1.k ∧ h1.v = s1.v ∧
      (∀ bi hh t d, (⟨fives4, fives4, 1⟩ : KVPair).len ≤ t →
        t < (⟨fives4, fives4, 1⟩ : KVPair).len + 1 →
        h1.k bi hh t d
            = expandHeads cfg1.num_attention_heads_per_partition
                cfg1.num_multi_query_groups_per_partition
                (keyLayerOf cfg1 proj1 1 1 0 ones3 none) bi hh
                (t - (⟨fives4, fives4, 1⟩ : KVPair).len) d ∧
          h1.v bi hh t d
            = expandHeads cfg1.num_attention_heads_per_partition
                cfg1.num_multi_query_groups_per_partition
                (valueLayerOf cfg1 proj1 1 ones3) bi hh
                (t - (⟨fives4, fives4, 1⟩ : KVPair).len) d)) :=
  ⟨by decide,
    C2_returned_handle cfg1 proj1 proj1 1 zeros4 zeros4 e1 2 1 1 0 ones3 none none
      ⟨fives4, fives4, 1⟩ ⟨fives4, fives4, 769⟩ (by decide)⟩

theorem C3_witness :
    ((cfg1.num_multi_query_groups_per_partition ∣
        cfg1.num_attention_heads_per_partition) ∧ cfg1.coeff = none ∧ (1 : Nat) < 2) ∧
    (∃ outI hI sI outF hF sF,
      incrementalRun cfg1 proj1 proj1 1 zeros4 zeros4 e1 2 1 0 ones3 none 1
        = .ok (outI, hI, sI) ∧
      chatglm_attention_forward_8eb45c cfg1 proj1 proj1 1 zeros4 zeros4 e1 2 2 1 0 ones3
          none none none true none = .ok (outF, hF, sF) ∧
      ∀ bi o, outI 0 bi o = outF 1 bi o) :=
  ⟨⟨by decide, rfl, by decide⟩,
    C3_incremental_equals_full cfg1 proj1 proj1 1 zeros4 zeros4 e1 2 1 0 2 ones3 none
      (by decide) rfl 1 (by decide)⟩

theorem C4_witness :
    ∃ h2 s2, appendMany zeros4 zeros4 (none, none) [(1, ones4, ones4)]
        = .ok (some h2, some s2) ∧
      h2.len = totalTokens [(1, ones4, ones4)] ∧
      totalTokens [(1, ones4, ones4)] ≤ s2.max_cache_length ∧
      KV_CACHE_ALLOC_BLOCK_LENGTH ≤ s2.max_cache_length ∧
      (∀ x h3 s3,
        appendMany zeros4 zeros4 (none, none) ([(1, ones4, ones4)] ++ [x])
            = .ok (some h3, some s3) →
        s3.max_cache_length ≠ s2.max_cache_length →
        s2.max_cache_length + KV_CACHE_ALLOC_BLOCK_LENGTH ≤ s3.max_cache_length) :=
  C4_capacity_invariant zeros4 zeros4 (1, ones4, ones4) []

theorem C5_witness :
    ((⟨fives4, fives4, 1⟩ : KVCacheSt).max_cache_length
        < (⟨fives4, fives4, 1⟩ : KVPair).len + 1) ∧
    (∃ out h s2, cacheUpdate zeros4 zeros4 1 ones4 ones4 none true none
        = .ok (out, h, some s2) ∧
      s2.max_cache_length = max KV_CACHE_ALLOC_MIN_LENGTH 1 + KV_CACHE_ALLOC_BLOCK_LENGTH ∧
      ∀ bi hh t d, t < 1 →
        s2.k bi hh t d = ones4 bi hh t d ∧ s2.v bi hh t d = ones4 bi hh t d) ∧
    (∃ out h s2, cacheUpdate zeros4 zeros4 1 ones4 ones4 (some ⟨fives4, fives4, 1⟩) true
          (some ⟨fives4, fives4, 1⟩) = .ok (out, h, some s2) ∧
      s2.max_cache_length = (⟨fives4, fives4, 1⟩ : KVPair).len + 1
        + KV_CACHE_ALLOC_BLOCK_LENGTH ∧
      (∀ bi hh t d, t < (⟨fives4, fives4, 1⟩ : KVPair).len →
        s2.k bi hh t d = fives4 bi hh t d ∧ s2.v bi hh t d = fives4 bi hh t d) ∧
      (∀ bi hh t d, (⟨fives4, fives4, 1⟩ : KVPair).len ≤ t →
        t < (⟨fives4, fives4, 1⟩ : KVPair).len + 1 →
        s2.k bi hh t d = ones4 bi hh (t - (⟨fives4, fives4, 1⟩ : KVPair).len) d ∧
          s2.v bi hh t d = ones4 bi hh (t - (⟨fives4, fives4, 1⟩ : KVPair).len) d)) :=
  ⟨by decide,
    (C5_allocation_sizing zeros4 zeros4 1 ones4 ones4).1,
    (C5_allocation_sizing zeros4 zeros4 1 ones4 ones4).2
      ⟨fives4, fives4, 1⟩ ⟨fives4, fives4, 1⟩ (by decide)⟩

theorem C6_witness :
    ((1 : Nat) < 2) ∧ attnProbs cfg1 e1 4 4 ones4 ones4 none 0 0 1 2 = 0 :=
  ⟨by decide, C6_causal_masking_zero cfg1 e1 4 ones4 ones4 0 0 1 2 (by decide)⟩

theorem C7_witness :
    ((0 : Nat) < 1 ∧ (0 : Nat) < 2) ∧
    apply_rotary_pos_emb 2 1 ones4 ones3 0 0 0 (2 * 0)
      = ones4 0 0 0 (2 * 0) * ones3 0 0 0 - ones4 0 0 0 (2 * 0 + 1) * ones3 0 0 1 :=
  ⟨⟨by decide, by decide⟩,
    ((C7_rotary_embedding 2 1 ones4).2.1 ones3 0 0 0 0 (by decide) (by decide)).1⟩

theorem C8_witness :
    (¬ (3 : Nat) ∣ 8 ∧ (2 : Nat) ∣ 8) ∧
    broadcast_kv_heads 8 3 2 1 1 zeros4 = .error .shapeMismatch ∧
    broadcast_kv_heads 8 2 2 1 1 zeros4 = .ok (expandHeads 8 2 zeros4) :=
  ⟨⟨by decide, by decide⟩,
    (C8_head_broadcast 8 3 2 1 1 zeros4).1 (by decide) (by decide) (by decide) (by decide),
    ((C8_head_broadcast 8 2 2 1 1 zeros4).2 (by decide)).1⟩

theorem C9_witness :
    ((⟨fives4, fives4, 1⟩ : KVPair).len + 1
      ≤ (⟨fives4, fives4, 769⟩ : KVCacheSt).max_cache_length) ∧
    (∃ out h s2, cacheUpdate zeros4 zeros4 1 ones4 ones4 (some ⟨fives4, fives4, 1⟩) true
          (some ⟨fives4, fives4, 769⟩) = .ok (out, h, some s2) ∧
      s2.max_cache_length = (⟨fives4, fives4, 769⟩ : KVCacheSt).max_cache_length ∧
      (∀ bi hh t d, t < (⟨fives4, fives4, 1⟩ : KVPair).len ∨
          (⟨fives4, fives4, 1⟩ : KVPair).len + 1 ≤ t →
        s2.k bi hh t d = fives4 bi hh t d ∧ s2.v bi hh t d = fives4 bi hh t d) ∧
      (∀ bi hh t d, (⟨fives4, fives4, 1⟩ : KVPair).len ≤ t →
        t < (⟨fives4, fives4, 1⟩ : KVPair).len + 1 →
        s2.k bi hh t d = ones4 bi hh (t - (⟨fives4, fives4, 1⟩ : KVPair).len) d ∧
          s2.v bi hh t d = ones4 bi hh (t - (⟨fives4, fives4, 1⟩ : KVPair).len) d)) :=
  ⟨by decide,
    C9_frame_no_realloc zeros4 zeros4 1 ones4 ones4 ⟨fives4, fives4, 1⟩
      ⟨fives4, fives4, 769⟩ true (by decide)⟩

theorem C10_witness :
    (cfg1.num_multi_query_groups_per_partition ∣
      cfg1.num_attention_heads_per_partition) ∧
    (∃ out,
      chatglm_attention_forward_8eb45c cfg1 proj1 proj1 1 zeros4 zeros4 e1 2 3 1 0 ones3
          none none none false none = .ok (out, none, none) ∧
      ∀ s bi o, out s bi o =
        linearApply proj1 cfg1.hidden_size_per_partition
          (cross_attn_forward_8eb45c cfg1 2 e1 3 1 3
            (queryLayerOf cfg1 proj1 1 3 0 ones3 none)
            (expandHeads cfg1.num_attention_heads_per_partition
              cfg1.num_multi_query_groups_per_partition
              (keyLayerOf cfg1 proj1 1 3 0 ones3 none))
            (expandHeads cfg1.num_attention_heads_per_partition
              cfg1.num_multi_query_groups_per_partition
              (valueLayerOf cfg1 proj1 1 ones3))
            none s bi) o) :=
  ⟨by decide,
    C10_cache_off cfg1 proj1 proj1 1 zeros4 zeros4 e1 2 3 1 0 ones3 none none none
      (by decide)⟩

end ChatGLM
